import Mathlib

/-!
Verification of the claude-retro session-reconstruction and correlation
pipeline (packages/claude-retro).  The JavaScript sources are shallowly
embedded below: pure library functions (`lib/time-calculator.js`,
`lib/issue-extractor.js`, `lib/log-parser.js`) become Lean functions over
`ℚ`-valued timestamps (JS numbers) and `Option String` (nullable strings);
the persistence phase of `src/processor.js` becomes an explicit statement
sequence executed against a record of table states, with SQLite constraint
failures and transaction rollback modelled via `Except`.
-/

/-! ## SHA-256 (Node `crypto.createHash('sha256')`), used by `generateSessionId` -/

/-- Truncate to a 32-bit word, as all SHA-256 arithmetic is mod 2^32. -/
def w32 (n : Nat) : Nat := n % 4294967296

/-- 32-bit right rotation. -/
def rotr (r x : Nat) : Nat := w32 ((x >>> r) ||| (x <<< (32 - r)))

/-- Three-way xor convenience. -/
def xor3 (a b c : Nat) : Nat := Nat.xor (Nat.xor a b) c

/-- UTF-8 encoding of one character (code points as in `Buffer.from(s, 'utf8')`). -/
def charUtf8 (c : Char) : List Nat :=
  let n := c.toNat
  if n < 128 then [n]
  else if n < 2048 then [192 ||| (n >>> 6), 128 ||| (n &&& 63)]
  else if n < 65536 then
    [224 ||| (n >>> 12), 128 ||| ((n >>> 6) &&& 63), 128 ||| (n &&& 63)]
  else
    [240 ||| (n >>> 18), 128 ||| ((n >>> 12) &&& 63),
     128 ||| ((n >>> 6) &&& 63), 128 ||| (n &&& 63)]

/-- UTF-8 bytes of a string. -/
def utf8Bytes (s : String) : List Nat := s.toList.flatMap charUtf8

/-- SHA-256 round constants. -/
def sha256K : List Nat :=
  [1116352408, 1899447441, 3049323471, 3921009573, 961987163, 1508970993,
   2453635748, 2870763221, 3624381080, 310598401, 607225278, 1426881987,
   1925078388, 2162078206, 2614888103, 3248222580, 3835390401, 4022224774,
   264347078, 604807628, 770255983, 1249150122, 1555081692, 1996064986,
   2554220882, 2821834349, 2952996808, 3210313671, 3336571891, 3584528711,
   113926993, 338241895, 666307205, 773529912, 1294757372, 1396182291,
   1695183700, 1986661051, 2177026350, 2456956037, 2730485921, 2820302411,
   3259730800, 3345764771, 3516065817, 3600352804, 4094571909, 275423344,
   430227734, 506948616, 659060556, 883997877, 958139571, 1322822218,
   1537002063, 1747873779, 1955562222, 2024104815, 2227730452, 2361852424,
   2428436474, 2756734187, 3204031479, 3329325298]

/-- SHA-256 initial hash state. -/
def sha256Init : List Nat :=
  [1779033703, 3144134277, 1013904242, 2773480762,
   1359893119, 2600822924, 528734635, 1541459225]

/-- Pad a byte message per SHA-256: append 0x80, zeros to 56 mod 64, and the
bit length as 8 big-endian bytes. -/
def sha256Pad (msg : List Nat) : List Nat :=
  let len := msg.length
  let bitLen := len * 8
  let zeros := (119 - len % 64) % 64
  msg ++ [128] ++ List.replicate zeros 0 ++
    [(bitLen >>> 56) &&& 255, (bitLen >>> 48) &&& 255, (bitLen >>> 40) &&& 255,
     (bitLen >>> 32) &&& 255, (bitLen >>> 24) &&& 255, (bitLen >>> 16) &&& 255,
     (bitLen >>> 8) &&& 255, bitLen &&& 255]

/-- Split a byte list into 64-byte blocks.  The fuel argument (the list
length, consumed one unit per block while the list shrinks by 64) only
discharges termination and is never exhausted first. -/
def chunk64Aux : Nat → List Nat → List (List Nat)
  | _, [] => []
  | 0, _ :: _ => []
  | fuel + 1, b :: bs => ((b :: bs).take 64) :: chunk64Aux fuel ((b :: bs).drop 64)

/-- Split a byte list into 64-byte blocks. -/
def chunk64 (l : List Nat) : List (List Nat) := chunk64Aux l.length l

/-- Combine big-endian groups of four bytes into 32-bit words. -/
def bytesToWords : List Nat → List Nat
  | b0 :: b1 :: b2 :: b3 :: rest =>
      (b0 <<< 24 ||| b1 <<< 16 ||| b2 <<< 8 ||| b3) :: bytesToWords rest
  | _ => []

/-- Extend the 16 block words to the 64-entry message schedule. -/
def sha256Schedule (w0 : List Nat) : List Nat :=
  (List.range 48).foldl
    (fun w _ =>
      let n := w.length
      let wm15 := w.getD (n - 15) 0
      let wm2 := w.getD (n - 2) 0
      let wm16 := w.getD (n - 16) 0
      let wm7 := w.getD (n - 7) 0
      let s0 := xor3 (rotr 7 wm15) (rotr 18 wm15) (wm15 >>> 3)
      let s1 := xor3 (rotr 17 wm2) (rotr 19 wm2) (wm2 >>> 10)
      w ++ [w32 (wm16 + s0 + wm7 + s1)])
    w0

/-- One SHA-256 compression round. -/
def sha256Round (w : List Nat) (st : List Nat) (i : Nat) : List Nat :=
  match st with
  | [a, b, c, d, e, f, g, h] =>
      let s1 := xor3 (rotr 6 e) (rotr 11 e) (rotr 25 e)
      let ch := Nat.xor (e &&& f) ((Nat.xor e 4294967295) &&& g)
      let t1 := w32 (h + s1 + ch + sha256K.getD i 0 + w.getD i 0)
      let s0 := xor3 (rotr 2 a) (rotr 13 a) (rotr 22 a)
      let mj := xor3 (a &&& b) (a &&& c) (b &&& c)
      let t2 := w32 (s0 + mj)
      [w32 (t1 + t2), a, b, c, w32 (d + t1), e, f, g]
  | _ => st

/-- Compress one 64-byte block into the running state. -/
def sha256Compress (hstate : List Nat) (block : List Nat) : List Nat :=
  let w := sha256Schedule (bytesToWords block)
  let fin := (List.range 64).foldl (sha256Round w) hstate
  List.zipWith (fun x y => w32 (x + y)) hstate fin

/-- SHA-256 digest bytes of a byte message. -/
def sha256Bytes (msg : List Nat) : List Nat :=
  let hs := (chunk64 (sha256Pad msg)).foldl sha256Compress sha256Init
  hs.flatMap (fun wd => [(wd >>> 24) &&& 255, (wd >>> 16) &&& 255, (wd >>> 8) &&& 255, wd &&& 255])

/-- Lowercase hexadecimal digit. -/
def hexDigit (n : Nat) : Char := if n < 10 then Char.ofNat (48 + n) else Char.ofNat (87 + n)

/-- Two hex digits of one byte. -/
def byteHex (b : Nat) : List Char := [hexDigit (b / 16), hexDigit (b % 16)]

/-- `crypto.createHash('sha256').update(s).digest('hex')`. -/
def sha256Hex (s : String) : String :=
  String.mk ((sha256Bytes (utf8Bytes s)).flatMap byteHex)

/-! ## Data model (lib/log-parser.js record shape, lib/time-calculator.js session) -/

/-- One parsed log entry as produced by `parseLogFile` (timestamps are JS
numbers, "seconds, fractional allowed", modelled as `ℚ`; absent/null string
fields are `none`). -/
structure LogEntry where
  timestamp : ℚ
  session_id : String
  prompt_preview : Option String := none
  prompt_length : Nat := 0
  cwd : Option String := none
  git_branch : Option String := none
  git_remote : Option String := none
deriving DecidableEq

/-- JS truthiness of a nullable string: `undefined`/`null`/`""` are falsy. -/
def strTruthy : Option String → Bool
  | none => false
  | some s => !s.isEmpty

/-- Decimal rendering of a fractional part by long division (`fuel` bounds the
digit count; every JS number is a dyadic rational so its expansion terminates
well within the 1100-digit fuel). -/
def fracDigits : Nat → Nat → Nat → List Char
  | 0, _, _ => []
  | _, 0, _ => []
  | fuel + 1, r, d =>
    let r10 := r * 10
    Char.ofNat (48 + r10 / d) :: fracDigits fuel (r10 % d) d

/-- Template-literal rendering of a JS number (`${prompt.timestamp}`): integral
values render as decimal integers exactly as in JS; fractional values use the
terminating decimal expansion. -/
def numRepr (q : ℚ) : String :=
  if q.den = 1 then toString q.num
  else
    (if q < 0 then "-" else "") ++ toString (q.num.natAbs / q.den) ++ "." ++
      String.mk (fracDigits 1100 (q.num.natAbs % q.den) q.den)

/-- `generateSessionId` (lib/time-calculator.js): first 16 hex chars of the
SHA-256 of `` `${prompt.timestamp}-${prompt.cwd || ''}-${prompt.session_id}` ``. -/
def generateSessionId (prompt : LogEntry) : String :=
  (sha256Hex (numRepr prompt.timestamp ++ "-" ++ prompt.cwd.getD "" ++ "-" ++ prompt.session_id)).take 16

/-- The in-memory session object built by `groupSessions`. -/
structure Session where
  session_id : String
  start_time : ℤ
  end_time : ℤ
  lastPromptTime : ℚ
  cwd : Option String
  prompts : List LogEntry
  original_session_id : String
  prompt_count : Nat := 0
  duration_minutes : ℚ := 0
deriving DecidableEq

/-- The fresh session object created when a gap is exceeded
(`currentSession = { ... }` in `groupSessions`); `promptTime` is
`prompt.timestamp * 1000` and start/end are `Math.floor(promptTime / 1000)`. -/
def newSession (prompt : LogEntry) : Session :=
  let promptTime := prompt.timestamp * 1000
  { session_id := generateSessionId prompt
    start_time := ⌊promptTime / 1000⌋
    end_time := ⌊promptTime / 1000⌋
    lastPromptTime := promptTime
    cwd := prompt.cwd
    prompts := []
    original_session_id := prompt.session_id }

/-- The per-iteration mutation of the open session: push the prompt, advance
`end_time`/`lastPromptTime`/`prompt_count`, and update `cwd` to the most recent
truthy value. -/
def addPrompt (s : Session) (prompt : LogEntry) : Session :=
  let promptTime := prompt.timestamp * 1000
  { s with
    prompts := s.prompts ++ [prompt]
    end_time := ⌊promptTime / 1000⌋
    lastPromptTime := promptTime
    prompt_count := s.prompts.length + 1
    cwd := if strTruthy prompt.cwd then prompt.cwd else s.cwd }

/-- Finalization applied to a session closed mid-loop: the source computes
`(currentSession.end_time - currentSession.start_time) / 1000 / 60`. -/
def finalizeMid (s : Session) : Session :=
  { s with duration_minutes := ((s.end_time : ℚ) - (s.start_time : ℚ)) / 1000 / 60 }

/-- Finalization applied to the last open session after the loop: the source
computes `(currentSession.end_time - currentSession.start_time) / 60`. -/
def finalizeLast (s : Session) : Session :=
  { s with duration_minutes := ((s.end_time : ℚ) - (s.start_time : ℚ)) / 60 }

/-- The scan of `groupSessions` over the sorted prompts, carrying the open
session and the list of closed sessions. -/
def groupLoop (gapMs : ℚ) : List LogEntry → Option Session → List Session → List Session
  | [], none, sessions => sessions
  | [], some cur, sessions => sessions ++ [finalizeLast cur]
  | prompt :: rest, none, sessions =>
      groupLoop gapMs rest (some (addPrompt (newSession prompt) prompt)) sessions
  | prompt :: rest, some cur, sessions =>
      let promptTime := prompt.timestamp * 1000
      if promptTime - cur.lastPromptTime > gapMs then
        groupLoop gapMs rest (some (addPrompt (newSession prompt) prompt))
          (sessions ++ [finalizeMid cur])
      else
        groupLoop gapMs rest (some (addPrompt cur prompt)) sessions

/-- The comparator `(a, b) => a.timestamp - b.timestamp` as an order relation. -/
def tsLE (a b : LogEntry) : Prop := a.timestamp ≤ b.timestamp

instance : DecidableRel tsLE :=
  fun a b => (inferInstance : Decidable (a.timestamp ≤ b.timestamp))

instance : IsTotal LogEntry tsLE := ⟨fun a b => le_total a.timestamp b.timestamp⟩

instance : IsTrans LogEntry tsLE := ⟨fun _ _ _ hab hbc => le_trans hab hbc⟩

/-- `groupSessions(prompts, gapMinutes)` (lib/time-calculator.js): sort by
timestamp (stable), scan once, close the open session whenever the gap in
milliseconds exceeds `gapMinutes * 60 * 1000`. -/
def groupSessions (prompts : List LogEntry) (gapMinutes : ℚ := 30) : List Session :=
  if prompts.isEmpty then []
  else
    let sorted := List.insertionSort tsLE prompts
    let gapMs := gapMinutes * 60 * 1000
    groupLoop gapMs sorted none []

/-! ## Issue extractor (lib/issue-extractor.js)

The four default patterns are `\b([A-Z]{1,3}-\d+)\b` (branch, flag `i`, first
match; prompt, global, no `i`), `\[([A-Z]{1,3}-\d+)\]` / `^([A-Z]{1,3}-\d+):` /
`^([A-Z]{1,3}-\d+)\s` (commit, global) and `\/([A-Z]{1,3}-\d+)\//` (path,
global).  They are embedded as direct character scanners; custom configured
patterns are modelled as abstract compiled matchers `String → List String`
returning the `m[1] || m[0]` text of each match. -/

/-- An extracted issue occurrence `{issueKey, source, confidence}`. -/
structure IssueRef where
  issueKey : String
  source : String
  confidence : ℚ
deriving DecidableEq

/-- JS regex word character `\w` = `[A-Za-z0-9_]`. -/
def isWordChar (c : Char) : Bool := c.isAlphanum || c = '_'

/-- The letter class of the key pattern: `[A-Z]` case-folded when the regex has
the `i` flag. -/
def letterOk (ci : Bool) (c : Char) : Bool := if ci then c.isAlpha else c.isUpper

/-- ASCII whitespace for the regex class `\s` (the sources only meet ASCII). -/
def isSpaceChar (c : Char) : Bool :=
  c = ' ' || c = '\t' || c = '\n' || c = '\r' || c = Char.ofNat 11 || c = Char.ofNat 12

/-- Match the core key pattern `[A-Z]{1,3}-\d+` at the start of `l`, returning
the matched characters and the rest.  Greedy matching with backtracking
succeeds exactly when the maximal letter run has length 1–3 and is followed by
a hyphen and a digit: any shorter letter choice is followed by another letter
(never `-`), and any shorter digit choice is followed by another digit, so only
the maximal choices matter. -/
def matchKeyCore (ci : Bool) (l : List Char) : Option (List Char × List Char) :=
  let ls := l.takeWhile (letterOk ci)
  if ls.length < 1 || 3 < ls.length then none
  else
    match l.drop ls.length with
    | '-' :: r2 =>
        let ds := r2.takeWhile Char.isDigit
        if ds.isEmpty then none
        else some (ls ++ '-' :: ds, r2.drop ds.length)
    | _ => none

/-- Scan for global `\b([A-Z]{1,3}-\d+)\b` matches.  `prev` is the character
before the current position (`none` at string start), giving the leading
word-boundary test; the trailing boundary requires the next character to be a
non-word character or the end.  The scan advances one character per step;
this agrees with the JS `lastIndex` scan because a match can never begin inside
an earlier match (every match begins with a letter at a word boundary, and
every interior position is either preceded by a word character or holds a
non-letter). -/
def scanWordKeys (ci : Bool) : Option Char → List Char → List (List Char)
  | _, [] => []
  | prev, c :: cs =>
    let boundary := match prev with
      | none => true
      | some p => !isWordChar p
    if boundary then
      match matchKeyCore ci (c :: cs) with
      | some (tok, rest) =>
          let trailingWord := match rest with
            | [] => false
            | c2 :: _ => isWordChar c2
          if trailingWord then scanWordKeys ci (some c) cs
          else tok :: scanWordKeys ci (some c) cs
      | none => scanWordKeys ci (some c) cs
    else scanWordKeys ci (some c) cs

/-- Scan for global `\[([A-Z]{1,3}-\d+)\]` matches.  One-character advance
agrees with the JS scan since a match contains no interior `[`. -/
def scanBracketKeys : List Char → List (List Char)
  | [] => []
  | '[' :: cs =>
    (match matchKeyCore false cs with
     | some (tok, ']' :: _) => tok :: scanBracketKeys cs
     | _ => scanBracketKeys cs)
  | _ :: cs => scanBracketKeys cs

/-- `^([A-Z]{1,3}-\d+):` — anchored, so at most one match even with the `g`
flag (no `m` flag, so `^` only matches position 0). -/
def matchAnchoredColon (l : List Char) : List (List Char) :=
  match matchKeyCore false l with
  | some (tok, ':' :: _) => [tok]
  | _ => []

/-- `^([A-Z]{1,3}-\d+)\s` — anchored, at most one match. -/
def matchAnchoredSpace (l : List Char) : List (List Char) :=
  match matchKeyCore false l with
  | some (tok, c :: _) => if isSpaceChar c then [tok] else []
  | _ => []

/-- Fuelled scan for global `\/([A-Z]{1,3}-\d+)\//` matches.  Here the JS scan
position jumps past the *trailing* slash of a match, so a key sharing that
slash is not found; the fuel (initially the input length, decreasing by one
per step while the input shrinks by at least one) only discharges termination
and is never exhausted first. -/
def scanPathKeysF : Nat → List Char → List (List Char)
  | 0, _ => []
  | _, [] => []
  | fuel + 1, '/' :: cs =>
    (match matchKeyCore false cs with
     | some (tok, '/' :: rest) => tok :: scanPathKeysF fuel rest
     | _ => scanPathKeysF fuel cs)
  | fuel + 1, _ :: cs => scanPathKeysF fuel cs

/-- All matches of the path pattern. -/
def scanPathKeys (l : List Char) : List (List Char) := scanPathKeysF l.length l

/-- `if (!results.find(r => r.issueKey === key))` followed by a push. -/
def pushIfNew (results : List IssueRef) (i : IssueRef) : List IssueRef :=
  if results.any (fun r => r.issueKey == i.issueKey) then results else results ++ [i]

/-- The trailing custom-pattern loop shared by all four extractors: each
configured pattern contributes its matches' `(m[1] || m[0]).toUpperCase()`
keys, deduplicated against the accumulated results. -/
def applyCustomPatterns (text source : String) (confidence : ℚ)
    (patterns : List (String → List String)) (results : List IssueRef) : List IssueRef :=
  patterns.foldl
    (fun res f => (f text).foldl (fun res2 k => pushIfNew res2 ⟨k.toUpper, source, confidence⟩) res)
    results

/-- `extractFromBranch(branchName, patterns)`: first match of the branch
pattern (confidence 1.0), then custom patterns. -/
def extractFromBranch (branchName : String) (patterns : List (String → List String)) : List IssueRef :=
  if branchName.isEmpty then []
  else
    let results :=
      match (scanWordKeys true none branchName.toList).head? with
      | some tok => [⟨(String.mk tok).toUpper, "branch", 1⟩]
      | none => []
    applyCustomPatterns branchName "branch" 1 patterns results

/-- `extractFromCommitMessage(message, patterns)`: the three commit patterns in
order (confidence 1.0), each match deduplicated, then custom patterns. -/
def extractFromCommitMessage (message : String) (patterns : List (String → List String)) : List IssueRef :=
  if message.isEmpty then []
  else
    let cs := message.toList
    let results :=
      (scanBracketKeys cs ++ matchAnchoredColon cs ++ matchAnchoredSpace cs).foldl
        (fun res tok => pushIfNew res ⟨(String.mk tok).toUpper, "commit", 1⟩) []
    applyCustomPatterns message "commit" 1 patterns results

/-- `extractFromPrompt(promptText, patterns)`: global word-boundary pattern
(no `i` flag), confidence 0.7, then custom patterns. -/
def extractFromPrompt (promptText : String) (patterns : List (String → List String)) : List IssueRef :=
  if promptText.isEmpty then []
  else
    let results :=
      (scanWordKeys false none promptText.toList).foldl
        (fun res tok => pushIfNew res ⟨(String.mk tok).toUpper, "prompt", 0.7⟩) []
    applyCustomPatterns promptText "prompt" 0.7 patterns results

/-- `extractFromPath(path, patterns)`: global path-segment pattern, confidence
0.5, then custom patterns. -/
def extractFromPath (path : String) (patterns : List (String → List String)) : List IssueRef :=
  if path.isEmpty then []
  else
    let results :=
      (scanPathKeys path.toList).foldl
        (fun res tok => pushIfNew res ⟨(String.mk tok).toUpper, "directory", 0.5⟩) []
    applyCustomPatterns path "directory" 0.5 patterns results

/-- `updateIssueMap(map, issue)`, with the JS insertion-ordered `Map` as an
ordered association list keyed by `issueKey`: a strictly higher confidence
replaces the stored record in place (`map.set` keeps the key's position); an
equal confidence mutates the stored record's `source` to the comma-joined
labels; a lower confidence is dropped. -/
def updateIssueMap (map : List IssueRef) (issue : IssueRef) : List IssueRef :=
  match map.find? (fun r => r.issueKey == issue.issueKey) with
  | none => map ++ [issue]
  | some existing =>
    if issue.confidence > existing.confidence then
      map.map (fun r => if r.issueKey == issue.issueKey then issue else r)
    else if issue.confidence == existing.confidence then
      map.map (fun r =>
        if r.issueKey == issue.issueKey then { r with source := r.source ++ "," ++ issue.source } else r)
    else map

/-- A commit record parsed from `git log` output
(`{commit_hash, timestamp, author, message, repo_path}`, lib/git-analyzer.js). -/
structure CommitRecord where
  commit_hash : String
  timestamp : ℤ
  author : String
  message : String
  repo_path : String
deriving DecidableEq

/-- The candidate occurrences `extractFromSession` feeds to `updateIssueMap`,
in source order: the first prompt's branch (if truthy), each commit's message,
then per prompt the preview (if truthy) and the `cwd` path (if truthy). -/
def sessionCandidates (session : Session) (commits : List CommitRecord)
    (patterns : List (String → List String)) : List IssueRef :=
  (match session.prompts.head? with
   | some firstPrompt =>
     if strTruthy firstPrompt.git_branch then
       extractFromBranch (firstPrompt.git_branch.getD "") patterns
     else []
   | none => [])
  ++ commits.flatMap (fun c => extractFromCommitMessage c.message patterns)
  ++ session.prompts.flatMap (fun prompt =>
      (if strTruthy prompt.prompt_preview then
         extractFromPrompt (prompt.prompt_preview.getD "") patterns
       else [])
      ++ (if strTruthy prompt.cwd then extractFromPath (prompt.cwd.getD "") patterns else []))

/-- `extractFromSession(session, commits, patterns)`: fold every candidate
occurrence into the issue map and return the map's values in insertion order. -/
def extractFromSession (session : Session) (commits : List CommitRecord)
    (patterns : List (String → List String)) : List IssueRef :=
  (sessionCandidates session commits patterns).foldl updateIssueMap []

/-- `isValidIssueKey(key)`: full match of `^[A-Z]{1,3}-\d+$` (flag `i`). -/
def isValidIssueKey (key : String) : Bool :=
  match matchKeyCore true key.toList with
  | some (_, []) => true
  | _ => false

/-! ## Commit correlator (lib/git-analyzer.js)

`getCommits` shells out to `git log`; it is modelled as an external oracle
`String → ℤ → ℤ → List CommitRecord` (the per-repository history restricted to
the window).  `getCommitsFromRepos` itself — dedup, flatten, sort — is embedded
faithfully. -/

/-- `[...new Set(xs)]`: deduplication keeping each element's first occurrence. -/
def dedupFirst (l : List String) : List String :=
  l.foldl (fun acc x => if acc.contains x then acc else acc ++ [x]) []

/-- The comparator `(a, b) => a.timestamp - b.timestamp` on commits. -/
def commitTsLE (a b : CommitRecord) : Prop := a.timestamp ≤ b.timestamp

instance : DecidableRel commitTsLE :=
  fun a b => (inferInstance : Decidable (a.timestamp ≤ b.timestamp))

instance : IsTotal CommitRecord commitTsLE := ⟨fun a b => le_total a.timestamp b.timestamp⟩

instance : IsTrans CommitRecord commitTsLE := ⟨fun _ _ _ hab hbc => le_trans hab hbc⟩

/-- `getCommitsFromRepos(repoPaths, startTime, endTime)`: dedup the truthy
paths, collect each repo's commits, sort ascending by timestamp. -/
def getCommitsFromRepos (getCommits : String → ℤ → ℤ → List CommitRecord)
    (repoPaths : List String) (startTime endTime : ℤ) : List CommitRecord :=
  let uniqueRepos := dedupFirst (repoPaths.filter (fun p => !p.isEmpty))
  let allCommits := uniqueRepos.flatMap (fun rp => getCommits rp startTime endTime)
  List.insertionSort commitTsLE allCommits

/-! ## Ingestion store (src/database.js schema) and processor persistence
(src/processor.js)

Tables are lists of rows; the statements prepared in `processLogs` become an
explicit statement sequence.  `INSERT OR REPLACE` replaces the row with the
conflicting primary key, `INSERT OR IGNORE` drops the statement on conflict,
and the `CHECK` constraints of `session_issues` fail the statement.  The
declared `FOREIGN KEY` clauses are not modelled (no property below depends on
them).  Statement executions are numbered and an external fault oracle can
fail any single execution (an I/O error); inside `db.transaction` the first
failure aborts the whole body and no write persists, which is the rollback
guarantee under verification. -/

/-- A row of `sessions`. -/
structure SessionRow where
  session_id : String
  start_time : ℤ
  end_time : ℤ
  cwd : Option String
  duration_minutes : ℚ
  prompt_count : Nat
deriving DecidableEq

/-- A row of `prompts` (the AUTOINCREMENT id is the list position). -/
structure PromptRow where
  session_id : String
  timestamp : ℚ
  prompt_preview : Option String
  prompt_length : Nat
  cwd : Option String
  git_branch : Option String
  git_remote : Option String
deriving DecidableEq

/-- A row of `session_issues`. -/
structure IssueLinkRow where
  session_id : String
  issue_key : String
  source : String
  confidence : ℚ
deriving DecidableEq

/-- A row of `processing_log` (the ledger). -/
structure ProcessingRow where
  log_file : String
  entries_count : Nat
  sessions_created : Nat
  errors_count : Nat
deriving DecidableEq

/-- The mutable table state of the SQLite database. -/
structure Database where
  sessions : List SessionRow := []
  prompts : List PromptRow := []
  git_commits : List CommitRecord := []
  session_commits : List (String × String) := []
  session_issues : List IssueLinkRow := []
  processing_log : List ProcessingRow := []
deriving DecidableEq

/-- The `CHECK(source IN ('branch', 'commit', 'prompt', 'directory'))`
constraint of `session_issues` (src/database.js). -/
def sourceAllowed (s : String) : Bool :=
  s == "branch" || s == "commit" || s == "prompt" || s == "directory"

/-- The `CHECK(confidence >= 0 AND confidence <= 1)` constraint. -/
def confidenceAllowed (c : ℚ) : Bool := decide (0 ≤ c ∧ c ≤ 1)

/-- One prepared-statement execution of the processor's transaction body. -/
inductive SqlStmt where
  | insertSession (row : SessionRow)
  | insertPrompt (row : PromptRow)
  | insertCommit (row : CommitRecord)
  | insertSessionCommit (session_id commit_hash : String)
  | insertSessionIssue (session_id issue_key source : String) (confidence : ℚ)
deriving DecidableEq

/-- Apply one statement to the database, or fail on a constraint violation. -/
def applyStmt (db : Database) : SqlStmt → Except String Database
  | .insertSession row =>
      .ok { db with sessions :=
        db.sessions.filter (fun r => !(r.session_id == row.session_id)) ++ [row] }
  | .insertPrompt row => .ok { db with prompts := db.prompts ++ [row] }
  | .insertCommit row =>
      if db.git_commits.any (fun r => r.commit_hash == row.commit_hash) then .ok db
      else .ok { db with git_commits := db.git_commits ++ [row] }
  | .insertSessionCommit sid h =>
      if db.session_commits.any (fun p => p.1 == sid && p.2 == h) then .ok db
      else .ok { db with session_commits := db.session_commits ++ [(sid, h)] }
  | .insertSessionIssue sid key src conf =>
      if !sourceAllowed src then .error "CHECK constraint failed: source"
      else if !confidenceAllowed conf then .error "CHECK constraint failed: confidence"
      else
        let kept := db.session_issues.filter
          (fun r => !(r.session_id == sid && r.issue_key == key && r.source == src))
        let newRow : IssueLinkRow :=
          { session_id := sid, issue_key := key, source := src, confidence := conf }
        Except.ok { db with session_issues := kept ++ [newRow] }

/-- Execute a statement list in order; `idx` numbers the executions and
`faults idx` injects an external failure at execution `idx`.  The first
failure aborts, as a thrown exception does inside `db.transaction`. -/
def execStmts (faults : Nat → Bool) :
    List SqlStmt → Nat → Database → Except String (Database × Nat)
  | [], idx, db => .ok (db, idx)
  | stmt :: rest, idx, db =>
    if faults idx then .error "statement failed"
    else
      match applyStmt db stmt with
      | .error e => .error e
      | .ok db2 => execStmts faults rest (idx + 1) db2

/-- The `sessions` row the processor writes for a session. -/
def sessionRowOf (s : Session) : SessionRow :=
  { session_id := s.session_id, start_time := s.start_time, end_time := s.end_time,
    cwd := s.cwd, duration_minutes := s.duration_minutes, prompt_count := s.prompt_count }

/-- The `prompts` row the processor writes for one prompt of a session. -/
def promptRowOf (s : Session) (p : LogEntry) : PromptRow :=
  { session_id := s.session_id, timestamp := p.timestamp,
    prompt_preview := p.prompt_preview, prompt_length := p.prompt_length,
    cwd := p.cwd, git_branch := p.git_branch, git_remote := p.git_remote }

/-- The statement sequence the transaction body issues for one session
(src/processor.js lines 163–231): the session upsert, the prompt inserts, and
— only when `session.prompts.map(p => p.cwd).filter(Boolean)` is non-empty —
the commit and link inserts for the correlated commits followed by the
issue-link upserts from `extractFromSession`. -/
def sessionStmts (getCommits : String → ℤ → ℤ → List CommitRecord)
    (patterns : List (String → List String)) (s : Session) : List SqlStmt :=
  [SqlStmt.insertSession (sessionRowOf s)]
  ++ s.prompts.map (fun p => SqlStmt.insertPrompt (promptRowOf s p))
  ++ (let repoPaths := (s.prompts.filterMap LogEntry.cwd).filter (fun c => !c.isEmpty)
      if repoPaths.isEmpty then []
      else
        let commits := getCommitsFromRepos getCommits repoPaths s.start_time s.end_time
        commits.flatMap
          (fun c => [SqlStmt.insertCommit c, SqlStmt.insertSessionCommit s.session_id c.commit_hash])
        ++ (extractFromSession s commits patterns).map
             (fun i => SqlStmt.insertSessionIssue s.session_id i.issueKey i.source i.confidence))

/-- The whole transaction body for one log file. -/
def fileStmts (getCommits : String → ℤ → ℤ → List CommitRecord)
    (patterns : List (String → List String)) (sessions : List Session) : List SqlStmt :=
  sessions.flatMap (sessionStmts getCommits patterns)

/-- `groupBySession(entries)` (lib/log-parser.js): group entries by
`session_id`, key order by first occurrence (JS `Map` insertion order). -/
def groupBySession (entries : List LogEntry) : List (String × List LogEntry) :=
  entries.foldl
    (fun m e =>
      if m.any (fun g => g.1 == e.session_id) then
        m.map (fun g => if g.1 == e.session_id then (g.1, g.2 ++ [e]) else g)
      else m ++ [(e.session_id, [e])])
    []

/-- Append the ledger row marking a file processed. -/
def markProcessed (db : Database) (logFile : String)
    (entriesCount sessionsCreated errorsCount : Nat) : Database :=
  { db with processing_log := db.processing_log ++
      [{ log_file := logFile, entries_count := entriesCount,
         sessions_created := sessionsCreated, errors_count := errorsCount }] }

/-- The session list the processor builds for a file: group by `session_id`
first, then gap-segment each group and flatten (src/processor.js lines
128–135). -/
def allSessionsOf (entries : List LogEntry) (gapMinutes : ℚ) : List Session :=
  (groupBySession entries).flatMap (fun g => groupSessions g.2 gapMinutes)

/-- One iteration of the processor's per-file loop (src/processor.js lines
96–251), after parsing: skip if the ledger already has the file; mark empty
files directly; otherwise group into sessions, run the transaction body, and
— after the transaction returns — run the ledger insert as a separate
statement.  The `catch` turns any failure into one counted error, leaving the
database at whatever state the failing step left committed (a failed
transaction commits nothing).  Returns the database and the error count. -/
def processOneFile (faults : Nat → Bool) (getCommits : String → ℤ → ℤ → List CommitRecord)
    (patterns : List (String → List String)) (gapMinutes : ℚ) (logFile : String)
    (entries : List LogEntry) (parseErrorsCount : Nat) (db : Database) : Database × Nat :=
  if db.processing_log.any (fun r => r.log_file == logFile) then (db, 0)
  else if entries.isEmpty then
    if faults 0 then (db, 1)
    else (markProcessed db logFile 0 0 parseErrorsCount, 0)
  else
    let allSessions := allSessionsOf entries gapMinutes
    match execStmts faults (fileStmts getCommits patterns allSessions) 0 db with
    | .error _ => (db, 1)
    | .ok (db2, idx) =>
      if faults idx then (db2, 1)
      else (markProcessed db2 logFile entries.length allSessions.length parseErrorsCount, 0)

/-! ## Log parser (lib/log-parser.js `parseLogFile` inner loop)

File reading, `content.trim().split('\n')` and the blank-line filter are I/O
and happen before the loop; the loop itself receives the non-blank lines.
Each line is the result of `JSON.parse`: `none` models a line on which
`JSON.parse` threw, `some v` a syntactically valid JSON value. -/

/-- A JSON value as produced by `JSON.parse`. -/
inductive JValue where
  | null
  | bool (b : Bool)
  | num (q : ℚ)
  | str (s : String)
  | arr (elems : List JValue)
  | obj (fields : List (String × JValue))

/-- JS property access `v.name`: `none` is `undefined` (absent field, or any
access on a non-object). -/
def jsField : JValue → String → Option JValue
  | .obj fields, name => (fields.find? (fun f => f.1 == name)).map (fun f => f.2)
  | _, _ => none

/-- JS truthiness of a possibly-undefined JSON value. -/
def jvTruthy : Option JValue → Bool
  | none => false
  | some .null => false
  | some (.bool b) => b
  | some (.num q) => !(q == 0)
  | some (.str s) => !s.isEmpty
  | some (.arr _) => true
  | some (.obj _) => true

/-- `x || null`. -/
def jsOrNull (v : Option JValue) : JValue :=
  if jvTruthy v then v.getD .null else .null

/-- `x || 0`. -/
def jsOrZero (v : Option JValue) : JValue :=
  if jvTruthy v then v.getD (.num 0) else .num 0

/-- The loosely-typed record `parseLogFile` pushes onto `entries`: the raw
field values of the parsed line, with `|| null` / `|| 0` defaulting. -/
structure RawEntry where
  timestamp : JValue
  session_id : JValue
  prompt_preview : JValue
  prompt_length : JValue
  cwd : JValue
  git_branch : JValue
  git_remote : JValue

/-- One recorded per-line error `{line, error}`. -/
structure ParseErr where
  line : Nat
  error : String
deriving DecidableEq

/-- The body of the per-line loop for line index `i` (0-based; reported line
numbers are `i + 1`): a `JSON.parse` failure or a falsy `timestamp` /
`session_id` records an error and contributes no entry; otherwise the entry is
pushed. -/
def lineResult (i : Nat) : Option JValue → List RawEntry × List ParseErr
  | none => ([], [{ line := i + 1, error := "JSON parse error" }])
  | some v =>
    if !jvTruthy (jsField v "timestamp") || !jvTruthy (jsField v "session_id") then
      ([], [{ line := i + 1, error := "Missing required fields" }])
    else
      ([{ timestamp := (jsField v "timestamp").getD .null,
          session_id := (jsField v "session_id").getD .null,
          prompt_preview := jsOrNull (jsField v "prompt_preview"),
          prompt_length := jsOrZero (jsField v "prompt_length"),
          cwd := jsOrNull (jsField v "cwd"),
          git_branch := jsOrNull (jsField v "git_branch"),
          git_remote := jsOrNull (jsField v "git_remote") }], [])

/-- The parse loop from line index `i`, accumulating entries and errors in
order. -/
def parseLinesFrom : List (Option JValue) → Nat → List RawEntry × List ParseErr
  | [], _ => ([], [])
  | l :: rest, i =>
    let r := lineResult i l
    let rr := parseLinesFrom rest (i + 1)
    (r.1 ++ rr.1, r.2 ++ rr.2)

/-- `parseLogFile`'s `{entries, errors}` over the file's non-blank lines. -/
def parseLines (ls : List (Option JValue)) : List RawEntry × List ParseErr :=
  parseLinesFrom ls 0

/-! ## Stated properties and concrete fixtures -/

/-- Claim C3's in-session property: consecutive prompts of a session are
chronologically ordered and at most `gapMinutes` minutes apart. -/
def gapChain (gapMinutes : ℚ) (l : List LogEntry) : Prop :=
  l.Chain' (fun a b => a.timestamp ≤ b.timestamp ∧ b.timestamp - a.timestamp ≤ gapMinutes * 60)

/-- Claim C3's boundary property: the last prompt of one session and the first
prompt of the next are strictly more than `gapMinutes` minutes apart. -/
def sessionGapBoundary (gapMinutes : ℚ) (s t : Session) : Prop :=
  ∀ a ∈ s.prompts.getLast?, ∀ b ∈ t.prompts.head?, gapMinutes * 60 < b.timestamp - a.timestamp

/-- A session's id is the derived id of its first prompt. -/
def headDerivedId (s : Session) : Prop :=
  ∀ p ∈ s.prompts.head?, s.session_id = generateSessionId p

/-- The spec's gap scenario: entries at t = 0 s, 600 s, 3600 s sharing key "a". -/
def entA0 : LogEntry := { timestamp := 0, session_id := "a" }

/-- Second scenario entry (t = 600 s). -/
def entA600 : LogEntry := { timestamp := 600, session_id := "a" }

/-- Third scenario entry (t = 3600 s). -/
def entA3600 : LogEntry := { timestamp := 3600, session_id := "a" }

/-- The scenario entry list. -/
def scenarioEntries : List LogEntry := [entA0, entA600, entA3600]

/-- The first session of the gap scenario. -/
def scenarioSession1 : Session := (groupSessions scenarioEntries 30).headD (newSession entA0)

/-- The fault oracle injecting no failure. -/
def noFault : Nat → Bool := fun _ => false

/-- The fault oracle failing exactly statement execution 2 — for a one-entry
file that is the ledger insert, which runs after the two-statement transaction
body. -/
def ledgerFault : Nat → Bool := fun n => n == 2

/-- A version-control oracle with no commits anywhere. -/
def noCommitsOracle : String → ℤ → ℤ → List CommitRecord := fun _ _ _ => []

/-- A minimal entry with no working directory. -/
def entPlain : LogEntry := { timestamp := 100, session_id := "s" }

/-- The session built from `entPlain` alone. -/
def sessionNoCwd : Session := (groupSessions [entPlain] 30).headD (newSession entPlain)

/-- An entry whose branch carries key AB-1 and whose `cwd` enables commit
correlation. -/
def entTie : LogEntry :=
  { timestamp := 0, session_id := "s", cwd := some "/r", git_branch := some "feature/AB-1" }

/-- A correlated commit whose message also carries AB-1 (equal confidence 1.0
with the branch source). -/
def tieCommit : CommitRecord :=
  { commit_hash := "h1", timestamp := 0, author := "a", message := "[AB-1] fix", repo_path := "/r" }

/-- A version-control oracle returning `tieCommit` for every repository. -/
def commitsOracleTie : String → ℤ → ℤ → List CommitRecord := fun _ _ _ => [tieCommit]

/-- The session built from `entTie`. -/
def sessionTie : Session := (allSessionsOf [entTie] 30).headD (newSession entTie)

/-- An entry whose branch (confidence 1.0) and prompt preview (confidence 0.7)
both carry AB-1. -/
def entBeat : LogEntry :=
  { timestamp := 0, session_id := "s", prompt_preview := some "look at AB-1",
    git_branch := some "feature/AB-1" }

/-- The session built from `entBeat`. -/
def sessionBeat : Session := (groupSessions [entBeat] 30).headD (newSession entBeat)

/-- Two entries agreeing on timestamp, cwd and grouping key but differing in
every other field. -/
def entC4a : LogEntry :=
  { timestamp := 5, session_id := "k", prompt_preview := some "x", prompt_length := 3,
    cwd := some "/a", git_branch := some "b" }

/-- Counterpart of `entC4a` with different preview/length/branch/remote. -/
def entC4b : LogEntry :=
  { timestamp := 5, session_id := "k", cwd := some "/a", git_remote := some "r" }

/-- A JSON line whose `timestamp` field is present with value 0 and whose
`session_id` is present and non-empty. -/
def jsonZeroTs : JValue := .obj [("timestamp", .num 0), ("session_id", .str "a")]

/-! ## Claims -/

/-- **C2** — the claim states every session's `duration_minutes` equals
`(end_time - start_time) / 60`.  The code contradicts itself: the mid-loop
finalization divides by an extra factor of 1000 (`/ 1000 / 60`), while the
last-session finalization divides by 60 as specified.  On entries at 0 s,
600 s and 3600 s with a 30-minute gap, the first session spans 600 seconds but
is stored with `duration_minutes = 1/100` instead of the 10 minutes the claim
requires; only the last session's duration is correct. -/
theorem claim_C2_code_divergence :
    (groupSessions scenarioEntries 30).map (fun s => s.duration_minutes) = [1/100, 0] ∧
    (groupSessions scenarioEntries 30).map
        (fun s => ((s.end_time : ℚ) - (s.start_time : ℚ)) / 60) = [10, 0] := by
  exact ⟨by with_unfolding_all decide, by with_unfolding_all decide⟩

/-- **C6** — when the same key is found via branch and commit at equal
confidence, `extractFromSession` emits a single record whose source is the
comma-joined label "branch,commit"; that label fails the `session_issues`
CHECK constraint, so the insert's error branch is reached and persisting the
whole file fails (the transaction rolls back, one error is counted). -/
theorem claim_C6 :
    extractFromSession sessionTie [tieCommit] [] =
      [{ issueKey := "AB-1", source := "branch,commit", confidence := 1 }] ∧
    sourceAllowed "branch,commit" = false ∧
    "branch,commit" ∉ (["branch", "commit", "prompt", "directory"] : List String) ∧
    processOneFile noFault commitsOracleTie [] 30 "g.jsonl" [entTie] 0 {} =
      (({} : Database), 1) := by
  refine ⟨by with_unfolding_all decide, by with_unfolding_all decide, by with_unfolding_all decide, by with_unfolding_all decide⟩

/-- **C7** (counterexample) — the default key pattern allows only 1–3 letters,
so the branch "feature/PROJ-123-fix" of the claim's scenario yields no match
at all ("PROJ" has four letters and the word boundary `\b` rules out matching
the trailing "ROJ-123"); "PROJ-123" is not even a valid key under
`isValidIssueKey`. -/
theorem claim_C7_counterexample :
    extractFromBranch "feature/PROJ-123-fix" [] = [] ∧
    isValidIssueKey "PROJ-123" = false := by
  exact ⟨by with_unfolding_all decide, by with_unfolding_all decide⟩

/-- **C7** (amended) — with a key that fits the default 1–3-letter pattern the
claimed behaviour holds: branch "feature/PRJ-123-fix" yields exactly
`[{issueKey := "PRJ-123", source := "branch", confidence := 1.0}]`, the match
is case-insensitive, and the output key is normalized to uppercase. -/
theorem claim_C7_amended :
    extractFromBranch "feature/PRJ-123-fix" [] =
      [{ issueKey := "PRJ-123", source := "branch", confidence := 1 }] ∧
    extractFromBranch "feature/prj-123-fix" [] =
      [{ issueKey := "PRJ-123", source := "branch", confidence := 1 }] := by
  exact ⟨by with_unfolding_all decide, by with_unfolding_all decide⟩

/-- **C8** (counterexample) — "TASK" has four letters, so the claim's scenario
path "/home/u/TASK-7/app" yields no match under the default 1–3-letter
pattern; "TASK-7" is not a valid key. -/
theorem claim_C8_counterexample :
    extractFromPath "/home/u/TASK-7/app" [] = [] ∧
    isValidIssueKey "TASK-7" = false := by
  exact ⟨by with_unfolding_all decide, by with_unfolding_all decide⟩

/-- **C8** (amended) — with a 3-letter key the claimed behaviour holds:
"/home/u/TSK-7/app" yields exactly
`[{issueKey := "TSK-7", source := "directory", confidence := 0.5}]`, while
"/home/u/TSK-7x/app" yields no match because the key must occupy a full path
segment. -/
theorem claim_C8_amended :
    extractFromPath "/home/u/TSK-7/app" [] =
      [{ issueKey := "TSK-7", source := "directory", confidence := 0.5 }] ∧
    extractFromPath "/home/u/TSK-7x/app" [] = [] := by
  exact ⟨by with_unfolding_all decide, by with_unfolding_all decide⟩

/-- **C9** (counterexample) — the parser tests `!entry.timestamp`, i.e. JS
truthiness, not absence: a line whose `timestamp` field is present with value
0 (and whose session key is present and non-empty) is rejected as "Missing
required fields", contradicting the claim that a line with both fields present
is accepted whatever their values. -/
theorem claim_C9_counterexample :
    jsField jsonZeroTs "timestamp" = some (.num 0) ∧
    jsField jsonZeroTs "session_id" = some (.str "a") ∧
    lineResult 0 (some jsonZeroTs) =
      ([], [{ line := 1, error := "Missing required fields" }]) :=
  ⟨rfl, rfl, rfl⟩

/-- **C9** (amended) — a syntactically valid line is rejected as a per-line
validation error exactly when its `timestamp` or `session_id` field is absent
or JS-falsy (`null`, `false`, `0`, or the empty string); otherwise it is
accepted as an entry with its raw field values.  Processing of lines is
independent: each line's contribution to entries and errors is unaffected by
any other line, so a rejection never aborts subsequent lines. -/
theorem claim_C9_amended :
    (∀ (i : Nat) (v : JValue),
       ((lineResult i (some v)).1 = [] ∧ (lineResult i (some v)).2 ≠ [])
         ↔ ¬(jvTruthy (jsField v "timestamp") = true ∧
             jvTruthy (jsField v "session_id") = true)) ∧
    (∀ (l1 l2 : List (Option JValue)) (i : Nat),
       parseLinesFrom (l1 ++ l2) i =
         ((parseLinesFrom l1 i).1 ++ (parseLinesFrom l2 (i + l1.length)).1,
          (parseLinesFrom l1 i).2 ++ (parseLinesFrom l2 (i + l1.length)).2)) := by
  constructor
  · intro i v
    by_cases ht : jvTruthy (jsField v "timestamp") <;>
      by_cases hs : jvTruthy (jsField v "session_id") <;>
        simp [lineResult, ht, hs]
  · intro l1 l2 i
    induction l1 generalizing i with
    | nil => simp [parseLinesFrom]
    | cons l rest ih =>
      have harith : i + 1 + rest.length = i + (rest.length + 1) := by omega
      simp only [List.cons_append, parseLinesFrom, List.length_cons]
      rw [show rest.append l2 = rest ++ l2 from rfl, ih, harith]
      simp [List.append_assoc]

/-- The head of a non-empty list with a default is a member. -/
theorem headD_mem_of_ne_nil {α : Type} (l : List α) (d : α) (h : l ≠ []) : l.headD d ∈ l := by
  cases l with
  | nil => exact absurd rfl h
  | cons x xs => exact List.mem_cons_self _ _

/-- Invariant of the `groupSessions` scan: starting from an open session whose
prompts already satisfy the gap chain, whose `lastPromptTime` is its last
prompt's time, and which precedes every remaining (sorted) prompt, the scan
only produces sessions satisfying the in-session gap chain, linked by the
strict boundary gap. -/
theorem groupLoop_gap_invariant (gapMinutes : ℚ) :
    ∀ (l : List LogEntry) (c : Session) (acc : List Session),
      l.Pairwise tsLE →
      (∀ q ∈ l, c.lastPromptTime ≤ q.timestamp * 1000) →
      c.prompts ≠ [] →
      (∀ p ∈ c.prompts.getLast?, c.lastPromptTime = p.timestamp * 1000) →
      gapChain gapMinutes c.prompts →
      (∀ s ∈ acc, s.prompts ≠ [] ∧ gapChain gapMinutes s.prompts) →
      List.Chain' (sessionGapBoundary gapMinutes) acc →
      (∀ s ∈ acc.getLast?, sessionGapBoundary gapMinutes s c) →
      (∀ s ∈ groupLoop (gapMinutes * 60 * 1000) l (some c) acc,
          s.prompts ≠ [] ∧ gapChain gapMinutes s.prompts) ∧
      List.Chain' (sessionGapBoundary gapMinutes)
        (groupLoop (gapMinutes * 60 * 1000) l (some c) acc) := by
  intro l
  induction l with
  | nil =>
    intro c acc _ _ hne hlastp hchain hacc haccchain hlink
    constructor
    · intro s hs
      rw [show groupLoop (gapMinutes * 60 * 1000) [] (some c) acc =
            acc ++ [finalizeLast c] from rfl] at hs
      rcases List.mem_append.mp hs with h | h
      · exact hacc s h
      · rcases List.mem_singleton.mp h with rfl
        exact ⟨hne, hchain⟩
    · rw [show groupLoop (gapMinutes * 60 * 1000) [] (some c) acc =
            acc ++ [finalizeLast c] from rfl]
      refine List.chain'_append.mpr ⟨haccchain, List.chain'_singleton _, ?_⟩
      intro x hx y hy
      rcases hy with ⟨rfl⟩
      exact hlink x hx
  | cons p rest ih =>
    intro c acc hl horder hne hlastp hchain hacc haccchain hlink
    have hpl := List.pairwise_cons.mp hl
    have hmul : ∀ q ∈ rest, p.timestamp * 1000 ≤ q.timestamp * 1000 := by
      intro q hq
      have := hpl.1 q hq
      unfold tsLE at this
      nlinarith
    by_cases hgap : p.timestamp * 1000 - c.lastPromptTime > gapMinutes * 60 * 1000
    · have hstep : groupLoop (gapMinutes * 60 * 1000) (p :: rest) (some c) acc =
          groupLoop (gapMinutes * 60 * 1000) rest (some (addPrompt (newSession p) p))
            (acc ++ [finalizeMid c]) := by
        simp only [groupLoop, if_pos hgap]
      rw [hstep]
      apply ih (addPrompt (newSession p) p) (acc ++ [finalizeMid c]) hpl.2
      · intro q hq
        exact hmul q hq
      · simp [addPrompt, newSession]
      · intro pp hpp
        rcases hpp with ⟨rfl⟩
        rfl
      · exact List.chain'_singleton _
      · intro s hs
        rcases List.mem_append.mp hs with h | h
        · exact hacc s h
        · rcases List.mem_singleton.mp h with rfl
          exact ⟨hne, hchain⟩
      · refine List.chain'_append.mpr ⟨haccchain, List.chain'_singleton _, ?_⟩
        intro x hx y hy
        rcases hy with ⟨rfl⟩
        exact hlink x hx
      · intro s hs
        rw [List.getLast?_concat] at hs
        rcases hs with ⟨rfl⟩
        intro a ha b hb
        rcases hb with ⟨rfl⟩
        have hc := hlastp a ha
        have : gapMinutes * 60 * 1000 < p.timestamp * 1000 - a.timestamp * 1000 := by
          rw [hc] at hgap; linarith
        linarith
    · have hstep : groupLoop (gapMinutes * 60 * 1000) (p :: rest) (some c) acc =
          groupLoop (gapMinutes * 60 * 1000) rest (some (addPrompt c p)) acc := by
        simp only [groupLoop, if_neg hgap]
      rw [hstep]
      apply ih (addPrompt c p) acc hpl.2
      · intro q hq
        exact hmul q hq
      · simp [addPrompt]
      · intro pp hpp
        rw [show (addPrompt c p).prompts = c.prompts ++ [p] from rfl,
          List.getLast?_concat] at hpp
        rcases hpp with ⟨rfl⟩
        rfl
      · rw [show (addPrompt c p).prompts = c.prompts ++ [p] from rfl]
        refine List.chain'_append.mpr ⟨hchain, List.chain'_singleton _, ?_⟩
        intro a ha b hb
        rcases hb with ⟨rfl⟩
        have hc := hlastp a ha
        have hle : c.lastPromptTime ≤ p.timestamp * 1000 :=
          horder p (List.mem_cons_self _ _)
        constructor
        · rw [hc] at hle; linarith
        · push_neg at hgap
          rw [hc] at hgap; linarith
      · exact hacc
      · exact haccchain
      · intro s hs a ha b hb
        rw [show (addPrompt c p).prompts = c.prompts ++ [p] from rfl,
          List.head?_append_of_ne_nil _ hne] at hb
        exact hlink s hs a ha b hb

/-- The two gap properties for the scan started on a sorted prompt list. -/
theorem groupLoop_top (gapMinutes : ℚ) (sorted : List LogEntry)
    (hs : sorted.Pairwise tsLE) :
    (∀ s ∈ groupLoop (gapMinutes * 60 * 1000) sorted none [],
        s.prompts ≠ [] ∧ gapChain gapMinutes s.prompts) ∧
    List.Chain' (sessionGapBoundary gapMinutes)
      (groupLoop (gapMinutes * 60 * 1000) sorted none []) := by
  cases sorted with
  | nil => exact ⟨fun s hs => absurd hs (List.not_mem_nil s), List.chain'_nil⟩
  | cons q qs =>
    have hstep : groupLoop (gapMinutes * 60 * 1000) (q :: qs) none [] =
        groupLoop (gapMinutes * 60 * 1000) qs (some (addPrompt (newSession q) q)) [] := rfl
    rw [hstep]
    have hpl := List.pairwise_cons.mp hs
    apply groupLoop_gap_invariant gapMinutes qs (addPrompt (newSession q) q) [] hpl.2
    · intro qq hqq
      have := hpl.1 qq hqq
      unfold tsLE at this
      show q.timestamp * 1000 ≤ qq.timestamp * 1000
      nlinarith
    · simp [addPrompt, newSession]
    · intro pp hpp
      rcases hpp with ⟨rfl⟩
      rfl
    · exact List.chain'_singleton _
    · intro s hs
      exact absurd hs (List.not_mem_nil s)
    · exact List.chain'_nil
    · intro s hs
      simp at hs

set_option maxRecDepth 2000 in
/-- **C3** — for every entry list and every `gapMinutes`: within each session
returned by `groupSessions`, chronologically adjacent prompts are at most
`gapMinutes` minutes (`gapMinutes * 60` seconds) apart; between the last
prompt of one session and the first prompt of the next the gap is strictly
greater.  In particular the spec scenario — entries at 0 s, 600 s, 3600 s with
a 30-minute gap — yields exactly the two sessions `[t0, t600]` and
`[t3600]`. -/
theorem claim_C3 :
    (∀ (prompts : List LogEntry) (gapMinutes : ℚ),
       (∀ s ∈ groupSessions prompts gapMinutes,
          s.prompts ≠ [] ∧ gapChain gapMinutes s.prompts) ∧
       List.Chain' (sessionGapBoundary gapMinutes) (groupSessions prompts gapMinutes)) ∧
    (groupSessions scenarioEntries 30).map (fun s => s.prompts.map (fun p => p.timestamp)) =
      [[0, 600], [3600]] := by
  constructor
  · intro prompts gapMinutes
    have h := groupLoop_top gapMinutes (List.insertionSort tsLE prompts)
      (List.sorted_insertionSort tsLE prompts)
    by_cases hemp : prompts.isEmpty
    · constructor
      · intro s hs
        simp [groupSessions, hemp] at hs
      · simp [groupSessions, hemp]
    · constructor
      · intro s hs
        refine h.1 s ?_
        simpa [groupSessions, hemp] using hs
      · simpa [groupSessions, hemp] using h.2
  · norm_num [groupSessions, scenarioEntries, groupLoop, entA0, entA600, entA3600,
      addPrompt, newSession, finalizeMid, finalizeLast, tsLE, List.insertionSort,
      List.orderedInsert]

/-- Witness for C3 at the spec scenario: the first produced session satisfies
the in-session chain, and the produced session list satisfies the boundary
chain. -/
theorem claim_C3_witness :
    (scenarioSession1.prompts ≠ [] ∧ gapChain 30 scenarioSession1.prompts) ∧
    List.Chain' (sessionGapBoundary 30) (groupSessions scenarioEntries 30) :=
  ⟨(claim_C3.1 scenarioEntries 30).1 scenarioSession1
      (headD_mem_of_ne_nil _ _ (by with_unfolding_all decide)),
   (claim_C3.1 scenarioEntries 30).2⟩

/-- `addPrompt` appends the prompt. -/
theorem addPrompt_prompts (s : Session) (p : LogEntry) :
    (addPrompt s p).prompts = s.prompts ++ [p] := rfl

/-- `addPrompt` keeps the session id. -/
theorem addPrompt_session_id (s : Session) (p : LogEntry) :
    (addPrompt s p).session_id = s.session_id := rfl

/-- `newSession` starts with no prompts. -/
theorem newSession_prompts (p : LogEntry) : (newSession p).prompts = [] := rfl

/-- `newSession` derives the id from its creating prompt. -/
theorem newSession_session_id (p : LogEntry) :
    (newSession p).session_id = generateSessionId p := by
  simp only [newSession]

/-- `finalizeLast` keeps prompts and id. -/
theorem finalizeLast_prompts_id (s : Session) :
    (finalizeLast s).prompts = s.prompts ∧ (finalizeLast s).session_id = s.session_id :=
  ⟨rfl, rfl⟩

/-- `finalizeMid` keeps prompts and id. -/
theorem finalizeMid_prompts_id (s : Session) :
    (finalizeMid s).prompts = s.prompts ∧ (finalizeMid s).session_id = s.session_id :=
  ⟨rfl, rfl⟩

/-- Invariant of the scan for C4: every produced session's id is the derived
id of its first prompt. -/
theorem groupLoop_headId (gapMs : ℚ) :
    ∀ (l : List LogEntry) (c : Session) (acc : List Session),
      c.prompts ≠ [] → headDerivedId c → (∀ s ∈ acc, headDerivedId s) →
      ∀ s ∈ groupLoop gapMs l (some c) acc, headDerivedId s := by
  have hfinLast : ∀ c : Session, headDerivedId c → headDerivedId (finalizeLast c) := by
    intro c hc pp hpp
    rw [(finalizeLast_prompts_id c).1] at hpp
    rw [(finalizeLast_prompts_id c).2]
    exact hc pp hpp
  have hfinMid : ∀ c : Session, headDerivedId c → headDerivedId (finalizeMid c) := by
    intro c hc pp hpp
    rw [(finalizeMid_prompts_id c).1] at hpp
    rw [(finalizeMid_prompts_id c).2]
    exact hc pp hpp
  have hfresh : ∀ p : LogEntry, headDerivedId (addPrompt (newSession p) p) := by
    intro p pp hpp
    rw [addPrompt_prompts, newSession_prompts, List.nil_append] at hpp
    rw [addPrompt_session_id, newSession_session_id]
    rcases hpp with ⟨rfl⟩
    rfl
  intro l
  induction l with
  | nil =>
    intro c acc _ hc hacc s hs
    rw [show groupLoop gapMs [] (some c) acc = acc ++ [finalizeLast c] from rfl] at hs
    rcases List.mem_append.mp hs with h | h
    · exact hacc s h
    · rcases List.mem_singleton.mp h with rfl
      exact hfinLast c hc
  | cons p rest ih =>
    intro c acc hne hc hacc s hs
    by_cases hgap : p.timestamp * 1000 - c.lastPromptTime > gapMs
    · rw [show groupLoop gapMs (p :: rest) (some c) acc =
            groupLoop gapMs rest (some (addPrompt (newSession p) p))
              (acc ++ [finalizeMid c]) from by simp only [groupLoop, if_pos hgap]] at hs
      refine ih (addPrompt (newSession p) p) (acc ++ [finalizeMid c])
        (by rw [addPrompt_prompts]; simp) (hfresh p) ?_ s hs
      intro t ht
      rcases List.mem_append.mp ht with h | h
      · exact hacc t h
      · rcases List.mem_singleton.mp h with rfl
        exact hfinMid c hc
    · rw [show groupLoop gapMs (p :: rest) (some c) acc =
            groupLoop gapMs rest (some (addPrompt c p)) acc from by
          simp only [groupLoop, if_neg hgap]] at hs
      refine ih (addPrompt c p) acc (by rw [addPrompt_prompts]; simp) ?_ hacc s hs
      intro pp hpp
      rw [addPrompt_prompts, List.head?_append_of_ne_nil _ hne] at hpp
      rw [addPrompt_session_id]
      exact hc pp hpp

/-- **C4** — the derived session identifier is a deterministic function of the
first entry's timestamp, `cwd` and original grouping key alone (no dependence
on any other field, no randomness): two entries agreeing on those three fields
derive the same id, and every session `groupSessions` produces carries exactly
the derived id of its first prompt, so re-running the builder on identical
input reproduces identical ids. -/
theorem claim_C4 :
    (∀ p q : LogEntry, p.timestamp = q.timestamp → p.cwd = q.cwd →
        p.session_id = q.session_id → generateSessionId p = generateSessionId q) ∧
    (∀ (prompts : List LogEntry) (gapMinutes : ℚ),
        ∀ s ∈ groupSessions prompts gapMinutes, headDerivedId s) := by
  constructor
  · intro p q h1 h2 h3
    unfold generateSessionId
    rw [h1, h2, h3]
  · intro prompts gapMinutes s hs
    by_cases hemp : prompts.isEmpty
    · simp [groupSessions, hemp] at hs
    · have hs2 : s ∈ groupLoop (gapMinutes * 60 * 1000)
          (List.insertionSort tsLE prompts) none [] := by
        simpa [groupSessions, hemp] using hs
      cases hsort : List.insertionSort tsLE prompts with
      | nil => rw [hsort] at hs2; simp [groupLoop] at hs2
      | cons q qs =>
        rw [hsort] at hs2
        rw [show groupLoop (gapMinutes * 60 * 1000) (q :: qs) none [] =
              groupLoop (gapMinutes * 60 * 1000) qs
                (some (addPrompt (newSession q) q)) [] from rfl] at hs2
        refine groupLoop_headId (gapMinutes * 60 * 1000) qs (addPrompt (newSession q) q) []
          (by rw [addPrompt_prompts]; simp) ?_
          (fun t ht => absurd ht (List.not_mem_nil t)) s hs2
        intro pp hpp
        rw [addPrompt_prompts, newSession_prompts, List.nil_append] at hpp
        rw [addPrompt_session_id, newSession_session_id]
        rcases hpp with ⟨rfl⟩
        rfl

/-- Witness for C4: the two fixture entries agree on timestamp/cwd/key and
derive the same id; the first scenario session's id is the derived id of its
first prompt. -/
theorem claim_C4_witness :
    generateSessionId entC4a = generateSessionId entC4b ∧
    scenarioSession1.session_id = generateSessionId entA0 :=
  ⟨claim_C4.1 entC4a entC4b rfl rfl rfl,
   claim_C4.2 scenarioEntries 30 scenarioSession1
     (headD_mem_of_ne_nil _ _ (by with_unfolding_all decide)) entA0
     (by with_unfolding_all decide)⟩

/-- `updateIssueMap` either keeps the key list unchanged (the key was already
stored) or appends the new key (which was not stored). -/
theorem updateIssueMap_keys (m : List IssueRef) (i : IssueRef) :
    (updateIssueMap m i).map IssueRef.issueKey = m.map IssueRef.issueKey ∨
    ((updateIssueMap m i).map IssueRef.issueKey = m.map IssueRef.issueKey ++ [i.issueKey] ∧
     i.issueKey ∉ m.map IssueRef.issueKey) := by
  unfold updateIssueMap
  cases hf : m.find? (fun r => r.issueKey == i.issueKey) with
  | none =>
    right
    constructor
    · simp
    · intro hmem
      rcases List.mem_map.mp hmem with ⟨r, hr, hkey⟩
      have := List.find?_eq_none.mp hf r hr
      simp [hkey] at this
  | some existing =>
    left
    by_cases h1 : i.confidence > existing.confidence
    · simp only [h1, if_true, List.map_map]
      apply List.map_congr_left
      intro r _
      by_cases hc : r.issueKey == i.issueKey
      · simp only [Function.comp, hc, if_true]
        exact (eq_of_beq hc).symm
      · simp [Function.comp, hc]
    · by_cases h2 : i.confidence == existing.confidence
      · simp only [h1, if_false, h2, if_true, List.map_map]
        apply List.map_congr_left
        intro r _
        by_cases hc : r.issueKey == i.issueKey <;> simp [Function.comp, hc]
      · simp [h1, h2]

/-- Folding occurrences into the issue map keeps the stored keys distinct. -/
theorem foldl_updateIssueMap_nodup (issues : List IssueRef) :
    ∀ acc : List IssueRef, (acc.map IssueRef.issueKey).Nodup →
      ((issues.foldl updateIssueMap acc).map IssueRef.issueKey).Nodup := by
  induction issues with
  | nil => intro acc h; exact h
  | cons i rest ih =>
    intro acc h
    rw [List.foldl_cons]
    apply ih
    rcases updateIssueMap_keys acc i with hk | ⟨hk, hnot⟩
    · rw [hk]; exact h
    · rw [hk]
      simp only [List.nodup_append, List.nodup_singleton, List.disjoint_singleton]
      exact ⟨h, trivial, hnot⟩

/-- A key is stored after `updateIssueMap` exactly when it was stored before
or is the inserted occurrence's key. -/
theorem updateIssueMap_keys_mem (m : List IssueRef) (i : IssueRef) (k : String) :
    k ∈ (updateIssueMap m i).map IssueRef.issueKey ↔
    (k ∈ m.map IssueRef.issueKey ∨ k = i.issueKey) := by
  cases hf : m.find? (fun r => r.issueKey == i.issueKey) with
  | none =>
    rw [show updateIssueMap m i = m ++ [i] from by simp [updateIssueMap, hf]]
    simp
  | some ex =>
    have hex_mem : ex ∈ m := List.mem_of_find?_eq_some hf
    have hex_key : ex.issueKey = i.issueKey := eq_of_beq (by simpa using List.find?_some hf)
    have hkeys : (updateIssueMap m i).map IssueRef.issueKey = m.map IssueRef.issueKey := by
      rcases updateIssueMap_keys m i with hk | ⟨_, hnot⟩
      · exact hk
      · exact absurd (hex_key ▸ List.mem_map_of_mem IssueRef.issueKey hex_mem) hnot
    rw [hkeys]
    constructor
    · exact Or.inl
    · rintro (h | rfl)
      · exact h
      · exact hex_key ▸ List.mem_map_of_mem IssueRef.issueKey hex_mem

/-- Conflict-policy invariant of the issue-map fold: when the stored keys are
distinct and every stored record's confidence bounds (and is attained among)
the occurrences consumed so far, the same holds after folding the remaining
occurrences. -/
theorem foldl_updateIssueMap_inv (issues : List IssueRef) :
    ∀ (acc consumed : List IssueRef),
      (acc.map IssueRef.issueKey).Nodup →
      (∀ i ∈ acc,
        (∀ j ∈ consumed, j.issueKey = i.issueKey → j.confidence ≤ i.confidence) ∧
        (∃ j ∈ consumed, j.issueKey = i.issueKey ∧ j.confidence = i.confidence)) →
      (∀ j ∈ consumed, ∃ i ∈ acc, i.issueKey = j.issueKey) →
      ∀ i ∈ issues.foldl updateIssueMap acc,
        (∀ j ∈ consumed ++ issues, j.issueKey = i.issueKey → j.confidence ≤ i.confidence) ∧
        (∃ j ∈ consumed ++ issues, j.issueKey = i.issueKey ∧ j.confidence = i.confidence) := by
  induction issues with
  | nil =>
    intro acc consumed _ hdom _ i hi
    rw [List.foldl_nil] at hi
    simpa using hdom i hi
  | cons x rest ih =>
    intro acc consumed hnd hdom hcov i hi
    rw [List.foldl_cons] at hi
    have key_nd : ((updateIssueMap acc x).map IssueRef.issueKey).Nodup := by
      rcases updateIssueMap_keys acc x with hk | ⟨hk, hnot⟩
      · rw [hk]; exact hnd
      · rw [hk]
        simp only [List.nodup_append, List.nodup_singleton, List.disjoint_singleton]
        exact ⟨hnd, trivial, hnot⟩
    have hdom' : ∀ i' ∈ updateIssueMap acc x,
        (∀ j ∈ consumed ++ [x], j.issueKey = i'.issueKey → j.confidence ≤ i'.confidence) ∧
        (∃ j ∈ consumed ++ [x], j.issueKey = i'.issueKey ∧ j.confidence = i'.confidence) := by
      intro i' hi'
      cases hf : acc.find? (fun r => r.issueKey == x.issueKey) with
      | none =>
        rw [show updateIssueMap acc x = acc ++ [x] from by simp [updateIssueMap, hf]] at hi'
        have hnotin : ∀ r ∈ acc, ¬ r.issueKey = x.issueKey := by
          intro r hr heq
          have := List.find?_eq_none.mp hf r hr
          simp [heq] at this
        rcases List.mem_append.mp hi' with hA | hX
        · refine ⟨?_, ?_⟩
          · intro j hj hkey
            rcases List.mem_append.mp hj with hjc | hjx
            · exact (hdom i' hA).1 j hjc hkey
            · rcases List.mem_singleton.mp hjx with rfl
              exact absurd hkey.symm (hnotin i' hA)
          · obtain ⟨j0, hj0, hk0, hc0⟩ := (hdom i' hA).2
            exact ⟨j0, List.mem_append.mpr (Or.inl hj0), hk0, hc0⟩
        · rcases (List.mem_singleton.mp hX).symm with rfl
          refine ⟨?_, ⟨x, List.mem_append.mpr (Or.inr (List.mem_singleton.mpr rfl)), rfl, rfl⟩⟩
          intro j hj hkey
          rcases List.mem_append.mp hj with hjc | hjx
          · obtain ⟨a, ha, hak⟩ := hcov j hjc
            exact absurd (hak.trans hkey) (hnotin a ha)
          · rcases List.mem_singleton.mp hjx with rfl
            exact le_refl _
      | some ex =>
        have hex_mem : ex ∈ acc := List.mem_of_find?_eq_some hf
        have hex_key : ex.issueKey = x.issueKey := eq_of_beq (by simpa using List.find?_some hf)
        have huniq : ∀ r ∈ acc, r.issueKey = x.issueKey → r = ex := fun r hr hrk =>
          List.inj_on_of_nodup_map hnd hr hex_mem (hrk.trans hex_key.symm)
        by_cases h1 : x.confidence > ex.confidence
        · rw [show updateIssueMap acc x =
              acc.map (fun r => if r.issueKey == x.issueKey then x else r) from by
            simp [updateIssueMap, hf, h1]] at hi'
          rcases List.mem_map.mp hi' with ⟨r, hr, hgr⟩
          by_cases hrk : (r.issueKey == x.issueKey) = true
          · rw [if_pos hrk] at hgr
            subst i'
            refine ⟨?_, ⟨x, List.mem_append.mpr (Or.inr (List.mem_singleton.mpr rfl)), rfl, rfl⟩⟩
            intro j hj hkey
            rcases List.mem_append.mp hj with hjc | hjx
            · have hb := (hdom ex hex_mem).1 j hjc (hkey.trans hex_key.symm)
              linarith
            · rcases List.mem_singleton.mp hjx with rfl
              exact le_refl _
          · rw [if_neg hrk] at hgr
            subst i'
            refine ⟨?_, ?_⟩
            · intro j hj hkey
              rcases List.mem_append.mp hj with hjc | hjx
              · exact (hdom r hr).1 j hjc hkey
              · rcases List.mem_singleton.mp hjx with rfl
                exact absurd (beq_of_eq hkey.symm) hrk
            · obtain ⟨j0, hj0, hk0, hc0⟩ := (hdom r hr).2
              exact ⟨j0, List.mem_append.mpr (Or.inl hj0), hk0, hc0⟩
        · by_cases h2 : (x.confidence == ex.confidence) = true
          · rw [show updateIssueMap acc x =
                acc.map (fun r => if r.issueKey == x.issueKey then
                  { r with source := r.source ++ "," ++ x.source } else r) from by
              simp [updateIssueMap, hf, h1, h2]] at hi'
            rcases List.mem_map.mp hi' with ⟨r, hr, hgr⟩
            by_cases hrk : (r.issueKey == x.issueKey) = true
            · rw [if_pos hrk] at hgr
              subst i'
              have hrex : r = ex := huniq r hr (eq_of_beq hrk)
              refine ⟨?_, ?_⟩
              · intro j hj hkey
                rcases List.mem_append.mp hj with hjc | hjx
                · exact (hdom r hr).1 j hjc hkey
                · rcases List.mem_singleton.mp hjx with rfl
                  have hje := eq_of_beq h2
                  rw [hrex]
                  exact le_of_eq hje
              · obtain ⟨j0, hj0, hk0, hc0⟩ := (hdom r hr).2
                exact ⟨j0, List.mem_append.mpr (Or.inl hj0), hk0, hc0⟩
            · rw [if_neg hrk] at hgr
              subst i'
              refine ⟨?_, ?_⟩
              · intro j hj hkey
                rcases List.mem_append.mp hj with hjc | hjx
                · exact (hdom r hr).1 j hjc hkey
                · rcases List.mem_singleton.mp hjx with rfl
                  exact absurd (beq_of_eq hkey.symm) hrk
              · obtain ⟨j0, hj0, hk0, hc0⟩ := (hdom r hr).2
                exact ⟨j0, List.mem_append.mpr (Or.inl hj0), hk0, hc0⟩
          · rw [show updateIssueMap acc x = acc from by
              simp [updateIssueMap, hf, h1, h2]] at hi'
            refine ⟨?_, ?_⟩
            · intro j hj hkey
              rcases List.mem_append.mp hj with hjc | hjx
              · exact (hdom i' hi').1 j hjc hkey
              · rcases List.mem_singleton.mp hjx with rfl
                have hieq : i' = ex := huniq i' hi' hkey.symm
                subst hieq
                push_neg at h1
                exact h1
            · obtain ⟨j0, hj0, hk0, hc0⟩ := (hdom i' hi').2
              exact ⟨j0, List.mem_append.mpr (Or.inl hj0), hk0, hc0⟩
    have hcov' : ∀ j ∈ consumed ++ [x],
        ∃ i' ∈ updateIssueMap acc x, i'.issueKey = j.issueKey := by
      intro j hj
      have hmem : j.issueKey ∈ (updateIssueMap acc x).map IssueRef.issueKey := by
        rw [updateIssueMap_keys_mem]
        rcases List.mem_append.mp hj with hjc | hjx
        · obtain ⟨a, ha, hak⟩ := hcov j hjc
          exact Or.inl (hak ▸ List.mem_map_of_mem IssueRef.issueKey ha)
        · rcases List.mem_singleton.mp hjx with rfl
          exact Or.inr rfl
      rcases List.mem_map.mp hmem with ⟨i', hi', hk⟩
      exact ⟨i', hi', hk⟩
    have main := ih (updateIssueMap acc x) (consumed ++ [x]) key_nd hdom' hcov' i hi
    have hassoc : (consumed ++ [x]) ++ rest = consumed ++ x :: rest := by simp
    rw [hassoc] at main
    exact main

/-- **C5** — `extractFromSession` stores exactly one record per issue key
(pairwise-distinct keys); folding occurrences through `updateIssueMap` keeps,
for every stored record, a confidence that bounds every same-key occurrence
and equals one of them (strictly higher confidence wins, a tie retains the
tied value).  Concretely: branch (1.0) beating prompt (0.7) leaves the single
record `{AB-1, branch, 1.0}`, and a branch/commit tie leaves the single record
`{AB-1, "branch,commit", 1.0}` with the labels comma-joined and the confidence
unchanged. -/
theorem claim_C5 :
    (∀ (session : Session) (commits : List CommitRecord)
        (patterns : List (String → List String)),
       List.Pairwise (fun a b => a.issueKey ≠ b.issueKey)
         (extractFromSession session commits patterns)) ∧
    (∀ issues : List IssueRef, ∀ i ∈ issues.foldl updateIssueMap [],
       (∀ j ∈ issues, j.issueKey = i.issueKey → j.confidence ≤ i.confidence) ∧
       (∃ j ∈ issues, j.issueKey = i.issueKey ∧ j.confidence = i.confidence)) ∧
    extractFromSession sessionBeat [] [] =
      [{ issueKey := "AB-1", source := "branch", confidence := 1 }] ∧
    extractFromSession sessionTie [tieCommit] [] =
      [{ issueKey := "AB-1", source := "branch,commit", confidence := 1 }] := by
  refine ⟨?_, ?_, ?_, ?_⟩
  · intro session commits patterns
    have hnd := foldl_updateIssueMap_nodup
      (sessionCandidates session commits patterns) [] (by simp)
    rw [show extractFromSession session commits patterns =
        (sessionCandidates session commits patterns).foldl updateIssueMap [] from rfl]
    exact (List.pairwise_map.mp hnd)
  · intro issues i hi
    have h := foldl_updateIssueMap_inv issues [] [] (by simp)
      (by intro i hi; simp at hi) (by intro j hj; simp at hj) i hi
    simpa using h
  · with_unfolding_all decide
  · with_unfolding_all decide

/-- Witness for C5: in the fold of a 0.7-prompt occurrence followed by a
1.0-branch occurrence of the same key, the surviving record's confidence
bounds the prompt occurrence; the beat-scenario extraction has
pairwise-distinct keys. -/
theorem claim_C5_witness :
    ({ issueKey := "AB-1", source := "prompt", confidence := 0.7 } : IssueRef).confidence ≤
      ({ issueKey := "AB-1", source := "branch", confidence := 1 } : IssueRef).confidence ∧
    List.Pairwise (fun a b => a.issueKey ≠ b.issueKey) (extractFromSession sessionBeat [] []) :=
  ⟨(claim_C5.2.1
      [{ issueKey := "AB-1", source := "prompt", confidence := 0.7 },
       { issueKey := "AB-1", source := "branch", confidence := 1 }]
      { issueKey := "AB-1", source := "branch", confidence := 1 }
      (by with_unfolding_all decide)).1
      { issueKey := "AB-1", source := "prompt", confidence := 0.7 }
      (by with_unfolding_all decide) rfl,
   claim_C5.1 sessionBeat [] []⟩

/-- When no prompt has a truthy `cwd`, `session.prompts.map(p => p.cwd)
.filter(Boolean)` is empty. -/
theorem cwdPaths_nil (l : List LogEntry) (h : ∀ p ∈ l, strTruthy p.cwd = false) :
    (l.filterMap LogEntry.cwd).filter (fun c => !c.isEmpty) = [] := by
  induction l with
  | nil => rfl
  | cons p rest ih =>
    have hp := h p (List.mem_cons_self _ _)
    have hrest := ih (fun q hq => h q (List.mem_cons_of_mem _ hq))
    cases hcwd : p.cwd with
    | none => simpa [List.filterMap_cons, hcwd] using hrest
    | some s0 =>
      have hs0 : s0.isEmpty = true := by
        rw [hcwd] at hp
        simpa [strTruthy] using hp
      simpa [List.filterMap_cons, hcwd, List.filter_cons, hs0] using hrest

/-- For a session with no truthy `cwd`, the statement sequence is just the
session upsert and the prompt inserts. -/
theorem sessionStmts_no_cwd (getCommits : String → ℤ → ℤ → List CommitRecord)
    (patterns : List (String → List String)) (s : Session)
    (h : ∀ p ∈ s.prompts, strTruthy p.cwd = false) :
    sessionStmts getCommits patterns s =
      SqlStmt.insertSession (sessionRowOf s) ::
        s.prompts.map (fun p => SqlStmt.insertPrompt (promptRowOf s p)) := by
  unfold sessionStmts
  rw [cwdPaths_nil s.prompts h]
  simp

/-- Executing only prompt inserts appends the prompt rows and leaves every
other table unchanged. -/
theorem execStmts_prompts_only (faults : Nat → Bool) (s : Session) :
    ∀ (ps : List LogEntry) (idx : Nat) (db db2 : Database) (idx2 : Nat),
      execStmts faults (ps.map (fun p => SqlStmt.insertPrompt (promptRowOf s p))) idx db =
        .ok (db2, idx2) →
      db2.sessions = db.sessions ∧
      db2.prompts = db.prompts ++ ps.map (promptRowOf s) ∧
      db2.git_commits = db.git_commits ∧
      db2.session_commits = db.session_commits ∧
      db2.session_issues = db.session_issues ∧
      db2.processing_log = db.processing_log := by
  intro ps
  induction ps with
  | nil =>
    intro idx db db2 idx2 hx
    rw [List.map_nil, execStmts] at hx
    injection hx with hx
    injection hx with hdb _
    subst hdb
    simp
  | cons p rest ih =>
    intro idx db db2 idx2 hx
    rw [List.map_cons] at hx
    by_cases hf : faults idx
    · rw [show execStmts faults
          (SqlStmt.insertPrompt (promptRowOf s p) ::
            rest.map (fun q => SqlStmt.insertPrompt (promptRowOf s q))) idx db =
          .error "statement failed" from by simp [execStmts, hf]] at hx
      exact absurd hx (by simp)
    · have hx2 : execStmts faults (rest.map (fun q => SqlStmt.insertPrompt (promptRowOf s q)))
          (idx + 1) { db with prompts := db.prompts ++ [promptRowOf s p] } = .ok (db2, idx2) := by
        rw [show execStmts faults
            (SqlStmt.insertPrompt (promptRowOf s p) ::
              rest.map (fun q => SqlStmt.insertPrompt (promptRowOf s q))) idx db =
            execStmts faults (rest.map (fun q => SqlStmt.insertPrompt (promptRowOf s q)))
              (idx + 1) { db with prompts := db.prompts ++ [promptRowOf s p] } from by
          simp [execStmts, hf, applyStmt]] at hx
        exact hx
      obtain ⟨h1, h2, h3, h4, h5, h6⟩ := ih (idx + 1) _ db2 idx2 hx2
      refine ⟨h1, ?_, h3, h4, h5, h6⟩
      rw [h2]
      simp

/-- **C10** — for a session none of whose prompts carries a truthy `cwd`, the
processor issues only the session upsert and the prompt inserts: no commit
correlation and no issue extraction happens at all, so any successful
execution leaves `git_commits`, `session_commits` and `session_issues`
untouched while storing the session row and its prompt rows — even when the
branch name or prompt previews carry valid issue keys. -/
theorem claim_C10 (getCommits : String → ℤ → ℤ → List CommitRecord)
    (patterns : List (String → List String)) (s : Session)
    (h : ∀ p ∈ s.prompts, strTruthy p.cwd = false) :
    sessionStmts getCommits patterns s =
      SqlStmt.insertSession (sessionRowOf s) ::
        s.prompts.map (fun p => SqlStmt.insertPrompt (promptRowOf s p)) ∧
    ∀ (faults : Nat → Bool) (idx : Nat) (db db2 : Database) (idx2 : Nat),
      execStmts faults (sessionStmts getCommits patterns s) idx db = .ok (db2, idx2) →
      db2.git_commits = db.git_commits ∧
      db2.session_commits = db.session_commits ∧
      db2.session_issues = db.session_issues ∧
      db2.prompts = db.prompts ++ s.prompts.map (promptRowOf s) ∧
      db2.sessions = db.sessions.filter
          (fun r => !(r.session_id == (sessionRowOf s).session_id)) ++ [sessionRowOf s] := by
  have hstmts := sessionStmts_no_cwd getCommits patterns s h
  refine ⟨hstmts, ?_⟩
  intro faults idx db db2 idx2 hexec
  rw [hstmts] at hexec
  by_cases hf : faults idx
  · rw [show execStmts faults
        (SqlStmt.insertSession (sessionRowOf s) ::
          s.prompts.map (fun p => SqlStmt.insertPrompt (promptRowOf s p))) idx db =
        .error "statement failed" from by simp [execStmts, hf]] at hexec
    exact absurd hexec (by simp)
  · have hexec2 : execStmts faults
        (s.prompts.map (fun p => SqlStmt.insertPrompt (promptRowOf s p))) (idx + 1)
        { db with sessions :=
            (db.sessions.filter (fun r => !(r.session_id == (sessionRowOf s).session_id)) ++
              [sessionRowOf s]) } =
        .ok (db2, idx2) := by
      rw [show execStmts faults
          (SqlStmt.insertSession (sessionRowOf s) ::
            s.prompts.map (fun p => SqlStmt.insertPrompt (promptRowOf s p))) idx db =
          execStmts faults (s.prompts.map (fun p => SqlStmt.insertPrompt (promptRowOf s p)))
            (idx + 1) { db with sessions :=
              (db.sessions.filter (fun r => !(r.session_id == (sessionRowOf s).session_id)) ++
                [sessionRowOf s]) }
          from by simp [execStmts, hf, applyStmt]] at hexec
      exact hexec
    obtain ⟨h1, h2, h3, h4, h5, _⟩ := execStmts_prompts_only faults s s.prompts (idx + 1) _
      db2 idx2 hexec2
    exact ⟨h3, h4, h5, h2, h1⟩

/-- Witness for C10 at the fixture session built from a cwd-less entry. -/
theorem claim_C10_witness :
    sessionStmts noCommitsOracle [] sessionNoCwd =
      SqlStmt.insertSession (sessionRowOf sessionNoCwd) ::
        sessionNoCwd.prompts.map (fun p => SqlStmt.insertPrompt (promptRowOf sessionNoCwd p)) :=
  (claim_C10 noCommitsOracle [] sessionNoCwd (by with_unfolding_all decide)).1

/-- **C1** (counterexample) — the processing-ledger marking is *not* inside
the transaction: it is a separate statement run after the transaction
commits.  With a fault injected at that ledger statement (execution 2, after
the 2-statement transaction body of a one-entry file), one of the file's
writes has failed, yet the session row and prompt row remain committed while
the ledger stays unmarked — the file's writes are not rolled back together
with the marking as the claim requires. -/
theorem claim_C1_counterexample :
    (processOneFile ledgerFault noCommitsOracle [] 30 "f.jsonl" [entPlain] 0 {}).1.sessions.length
        = 1 ∧
    (processOneFile ledgerFault noCommitsOracle [] 30 "f.jsonl" [entPlain] 0 {}).1.prompts.length
        = 1 ∧
    (processOneFile ledgerFault noCommitsOracle [] 30 "f.jsonl" [entPlain] 0 {}).1.processing_log
        = [] ∧
    (processOneFile ledgerFault noCommitsOracle [] 30 "f.jsonl" [entPlain] 0 {}).2 = 1 := by
  refine ⟨?_, ?_, ?_, ?_⟩ <;> with_unfolding_all decide

/-- **C1** (amended) — the session/prompt/commit/link/issue writes for one
file run inside a single transaction: a failure anywhere in that body leaves
the database exactly as it was (full rollback), the ledger unmarked, and one
counted error, so the file is retried on the next pass.  The ledger marking
itself is a separate insert executed after the transaction commits: when the
body succeeds and the ledger statement does not fail, the file's writes are
committed and the ledger row is appended. -/
theorem claim_C1_amended :
    (∀ (faults : Nat → Bool) (getCommits : String → ℤ → ℤ → List CommitRecord)
        (patterns : List (String → List String)) (gapMinutes : ℚ) (logFile : String)
        (entries : List LogEntry) (nErr : Nat) (db : Database) (e : String),
       db.processing_log.any (fun r => r.log_file == logFile) = false →
       entries.isEmpty = false →
       execStmts faults (fileStmts getCommits patterns (allSessionsOf entries gapMinutes)) 0 db =
         .error e →
       processOneFile faults getCommits patterns gapMinutes logFile entries nErr db = (db, 1)) ∧
    (∀ (faults : Nat → Bool) (getCommits : String → ℤ → ℤ → List CommitRecord)
        (patterns : List (String → List String)) (gapMinutes : ℚ) (logFile : String)
        (entries : List LogEntry) (nErr : Nat) (db db2 : Database) (idx : Nat),
       db.processing_log.any (fun r => r.log_file == logFile) = false →
       entries.isEmpty = false →
       execStmts faults (fileStmts getCommits patterns (allSessionsOf entries gapMinutes)) 0 db =
         .ok (db2, idx) →
       faults idx = false →
       processOneFile faults getCommits patterns gapMinutes logFile entries nErr db =
         (markProcessed db2 logFile entries.length (allSessionsOf entries gapMinutes).length nErr,
          0)) := by
  constructor
  · intro faults gc pats g lf entries nErr db e hskip hne hx
    simp [processOneFile, hskip, hne, hx]
  · intro faults gc pats g lf entries nErr db db2 idx hskip hne hx hfault
    simp [processOneFile, hskip, hne, hx, hfault]

/-- Witness for C1 at the branch/commit-tie file: the comma-joined source
fails the CHECK inside the transaction, and the whole file's writes roll back
with the ledger unmarked and one error counted. -/
theorem claim_C1_witness :
    processOneFile noFault commitsOracleTie [] 30 "g.jsonl" [entTie] 0 {} =
      (({} : Database), 1) :=
  claim_C1_amended.1 noFault commitsOracleTie [] 30 "g.jsonl" [entTie] 0 {}
    "CHECK constraint failed: source" (by with_unfolding_all decide)
    (by with_unfolding_all decide) (by with_unfolding_all rfl)
